import Mathlib

/-!
Verification of the BBN Stats data-pipeline scripts.

Shallow embedding of the pure transformation logic of the repository's
Python scripts (`update-team-stats.py`, `fetch_rankings.py`,
`update-schedule-results.py`, `fetch_playerstats_complete.py`,
`fetch_gamelog_complete.py`, `fetch_schedule.py`, `update-player-stats.py`,
`update-basketball-data.py`).

Python strings are modelled as lists of Unicode code points (`List Nat`);
all strings appearing in the scripts are ASCII, so Python's `str.lower`,
`str.strip` and `str.split` coincide with the ASCII versions modelled here.
Python floats are modelled as rationals (`ℚ`), Python `None`-able values as
`Option`, and files as explicit content values threaded through the
functions that read and write them.
-/

namespace BBN

/-- Code points of a string literal; the apostrophe (code 39) is written
numerically where needed. -/
def strLit (s : String) : List Nat :=
  s.data.map Char.toNat

/-- ASCII lower-casing of one code point (Python `str.lower` on the ASCII
strings used by the scripts). -/
def lowerCode (n : Nat) : Nat :=
  if 65 ≤ n ∧ n ≤ 90 then n + 32 else n

/-- ASCII lower-casing of a whole string. -/
def lowerStr (s : List Nat) : List Nat :=
  s.map lowerCode

/-- Python whitespace test (ASCII part): space and the control characters
9–13, as used by `str.split()` and `str.strip()`. -/
def pyIsSpace (n : Nat) : Bool :=
  n = 32 || (9 ≤ n && n ≤ 13)

/-- Python substring test `pat in s`. -/
def containsSub (s pat : List Nat) : Bool :=
  if pat.isPrefixOf s then true
  else
    match s with
    | [] => false
    | _ :: t => containsSub t pat

/-- Recursion core of Python `s.replace(old, new)`; the fuel argument (always
instantiated with the length of the string, which bounds the recursion depth)
makes the recursion structural. -/
def replaceAllAux (old new : List Nat) : Nat → List Nat → List Nat
  | 0, s => s
  | _ + 1, [] => []
  | fuel + 1, c :: t =>
    if old.isPrefixOf (c :: t) ∧ old ≠ [] then
      new ++ replaceAllAux old new fuel (t.drop (old.length - 1))
    else
      c :: replaceAllAux old new fuel t

/-- Python `s.replace(old, new)`: replace every non-overlapping occurrence of
`old` left to right (a match consumes `old.length` characters: the head `c`
plus `old.length - 1` further ones).  All patterns used by the scripts are
nonempty; for an empty `old` this definition is the identity. -/
def replaceAll (old new : List Nat) (s : List Nat) : List Nat :=
  replaceAllAux old new s.length s

/-- Recursion core of Python `s.split()`, again structural via a fuel
argument that always receives the length of the string. -/
def pyWordsAux : Nat → List Nat → List (List Nat)
  | 0, _ => []
  | _ + 1, [] => []
  | fuel + 1, c :: t =>
    if pyIsSpace c then pyWordsAux fuel t
    else (c :: t.takeWhile (fun x => !pyIsSpace x)) ::
      pyWordsAux fuel (t.dropWhile (fun x => !pyIsSpace x))

/-- Python `s.split()`: maximal runs of non-whitespace characters. -/
def pyWords (s : List Nat) : List (List Nat) :=
  pyWordsAux s.length s

/-- Python `' '.join(ws)`. -/
def joinSp : List (List Nat) → List Nat
  | [] => []
  | [w] => w
  | w :: ws => w ++ 32 :: joinSp ws

/-! ## `calculate_rank` (update-team-stats.py) -/

/-- Python `list.index(v)` from `calculate_rank`: index of the first element
equal to `v`; `none` models the `ValueError` branch. -/
def pyIndex (v : ℚ) : List ℚ → Option Nat
  | [] => none
  | w :: t =>
    if w = v then some 0
    else
      match pyIndex v t with
      | none => none
      | some i => some (i + 1)

/-- The fallback scan of `calculate_rank`: first position `i` such that
`(higher_is_better and value >= sorted_values[i]) or
(not higher_is_better and value <= sorted_values[i])`. -/
def scanPos (v : ℚ) (hib : Bool) : List ℚ → Option Nat
  | [] => none
  | w :: t =>
    if (hib && decide (w ≤ v)) || (!hib && decide (v ≤ w)) then some 0
    else
      match scanPos v hib t with
      | none => none
      | some i => some (i + 1)

/-- The filtered population of `calculate_rank`:
`[v for v in all_values if v is not None and v != 0]`. -/
def validValues (all_values : List (Option ℚ)) : List ℚ :=
  (all_values.filterMap id).filter (fun w => decide (w ≠ 0))

/-- The `sorted(valid_values, reverse=True)` / `sorted(valid_values)` step of
`calculate_rank`.  Python's sort is stable, but equal rationals are
indistinguishable, so any sorting algorithm produces the same list. -/
def sortedValues (hib : Bool) (valid : List ℚ) : List ℚ :=
  if hib then valid.insertionSort (· ≥ ·) else valid.insertionSort (· ≤ ·)

/-- The tail of `calculate_rank`: `sorted_values.index(value) + 1` when the
value occurs, otherwise the first position the value would occupy, otherwise
`len(sorted_values) + 1`. -/
def rankFrom (v : ℚ) (hib : Bool) (S : List ℚ) : Nat :=
  match pyIndex v S with
  | some i => i + 1
  | none =>
    match scanPos v hib S with
    | some i => i + 1
    | none => S.length + 1

/-- `calculate_rank(value, all_values, higher_is_better)` from
`update-team-stats.py`.  `None` floats are `Option ℚ`. -/
def calculate_rank (value : Option ℚ) (all_values : List (Option ℚ))
    (higher_is_better : Bool) : Nat :=
  match value with
  | none => 0
  | some v =>
    if v = 0 then 0
    else if (validValues all_values).isEmpty then 0
    else rankFrom v higher_is_better (sortedValues higher_is_better (validValues all_values))

/-! ## `normalize_team_name` (fetch_rankings.py) -/

/-- The alias table of `normalize_team_name`, in Python dict-literal order.
Code 39 is the apostrophe. -/
def ntnReplacements : List (List Nat × List Nat) :=
  [(strLit "st.", strLit "st"),
   (strLit "miami (oh)", strLit "miami ohio"),
   (strLit "miami-oh", strLit "miami ohio"),
   (strLit "miami (fl)", strLit "miami"),
   (strLit "miami-fl", strLit "miami"),
   (strLit "st john" ++ 39 :: strLit "s", strLit "st johns"),
   (strLit "saint john" ++ 39 :: strLit "s", strLit "st johns"),
   (strLit "saint louis", strLit "st louis"),
   (strLit "unc", strLit "north carolina"),
   (strLit "uconn", strLit "connecticut")]

/-- `normalize_team_name` from fetch_rankings.py: lower-case, apply the alias
substitutions in order, strip the characters `.` (46), apostrophe (39),
`(` (40) and `)` (41), and normalize whitespace via
`' '.join(name.split())`. -/
def normalize_team_name (name : List Nat) : List Nat :=
  joinSp (pyWords
    (replaceAll [41] [] (replaceAll [40] [] (replaceAll [39] [] (replaceAll [46] []
      (ntnReplacements.foldl (fun acc p => replaceAll p.1 p.2 acc)
        (lowerStr name)))))))

/-! ## `update-schedule-results.py`: opponent matching and schedule update -/

/-- Python `s.strip()`: remove leading and trailing whitespace. -/
def strip (s : List Nat) : List Nat :=
  ((s.dropWhile pyIsSpace).reverse.dropWhile pyIsSpace).reverse

/-- The name-variation table of `normalize_opponent_name` in
update-schedule-results.py, in Python dict-literal order (code 39 is the
apostrophe). -/
def sorReplacements : List (List Nat × List Nat) :=
  [(strLit "Mizzou", strLit "Missouri"),
   (strLit "Ole Miss", strLit "Mississippi"),
   (strLit "Mississippi State", strLit "Mississippi State"),
   (strLit "Tennessee Tech", strLit "Tennessee Tech"),
   (strLit "St. Johns", strLit "St. John" ++ 39 :: strLit "s"),
   (strLit "St. John" ++ 39 :: strLit "s", strLit "St. John" ++ 39 :: strLit "s")]

/-- `normalize_opponent_name` from update-schedule-results.py: strip, drop a
leading "vs " or "at ", then for each table entry replace the WHOLE name by
the replacement whenever the key occurs case-insensitively as a substring,
and strip again. -/
def normalize_opponent_name (name : List Nat) : List Nat :=
  let n1 := strip name
  let n2 :=
    if (strLit "vs ").isPrefixOf n1 then n1.drop 3
    else if (strLit "at ").isPrefixOf n1 then n1.drop 3
    else n1
  let n3 := sorReplacements.foldl
    (fun acc p => if containsSub (lowerStr acc) (lowerStr p.1) then p.2 else acc) n2
  strip n3

/-- One game in the dict-list built by `fetch_kentucky_games` in
update-schedule-results.py.  `date` is the game's tz-naive `start_date` as a
timestamp in seconds. -/
structure ApiGame where
  date : Int
  opponent : List Nat
  result : List Nat
  status : List Nat
  home : Bool
deriving DecidableEq

/-- One entry of `2025-schedule.json`.  `date` is the result of
`datetime.strptime(game['date'], '%B %d, %Y')` as a timestamp in seconds
(`none` models the parse failure swallowed by the bare `except`).
`otherFields` stands for the remaining fields of the JSON object (day, logo,
location, venue, time, conference, opponentRank, title), which the updater
never touches. -/
structure ScheduleGame where
  opponent : List Nat
  date : Option Int
  result : List Nat
  exh : Bool
  otherFields : List (List Nat)
deriving DecidableEq

/-- `match_game_by_opponent_and_date` from update-schedule-results.py.
Python's `(api_date - schedule_date).days` is the floor of the difference in
days, i.e. `Int.fdiv`; the code matches when its absolute value is ≤ 1. -/
def match_game_by_opponent_and_date (schedule_game : ScheduleGame)
    (api_games : List ApiGame) : Option ApiGame :=
  match schedule_game.date with
  | none => none
  | some schedule_date =>
    api_games.find? (fun api_game =>
      decide (lowerStr (normalize_opponent_name api_game.opponent) =
        lowerStr (normalize_opponent_name schedule_game.opponent)) &&
      decide ((Int.fdiv (api_game.date - schedule_date) 86400).natAbs ≤ 1))

/-- The per-entry update step of `update_schedule_file` in
update-schedule-results.py: exhibition games and games whose result is not
"TBD" are skipped; otherwise the matched API result (when itself not "TBD")
replaces the entry's result. -/
def updateScheduleEntry (api_games : List ApiGame) (game : ScheduleGame) :
    ScheduleGame :=
  if game.exh then game
  else if game.result ≠ strLit "TBD" then game
  else
    match match_game_by_opponent_and_date game api_games with
    | some matched =>
      if matched.result ≠ strLit "TBD" then { game with result := matched.result }
      else game
    | none => game

/-- Content of the schedule JSON file threaded through
`update_schedule_file`: missing file, malformed JSON, or a parsed list of
schedule entries. -/
inductive ScheduleFile where
  | missing
  | malformed (raw : List Nat)
  | valid (games : List ScheduleGame)
deriving DecidableEq

/-- `update_schedule_file` from update-schedule-results.py: a missing file
(`FileNotFoundError`) or malformed JSON (`json.JSONDecodeError`) aborts with
`False` and the file is left unchanged; otherwise every entry is processed
and the function returns `True` (also when no update was needed). -/
def update_schedule_file (file : ScheduleFile) (api_games : List ApiGame) :
    Bool × ScheduleFile :=
  match file with
  | .missing => (false, .missing)
  | .malformed raw => (false, .malformed raw)
  | .valid sched => (true, .valid (sched.map (updateScheduleEntry api_games)))

/-- The exit-code computation `return 0 if success else 1` shared by the
`main` functions of the updater scripts. -/
def script_exit_code (success : Bool) : Nat :=
  if success then 0 else 1

/-! ## JSON documents and `update_json_file` (update-team-stats.py) -/

/-- JSON values; objects are insertion-ordered key/value lists, matching
Python dicts. -/
inductive Json where
  | null
  | bool (b : Bool)
  | num (q : ℚ)
  | str (s : List Nat)
  | arr (elems : List Json)
  | obj (fields : List (String × Json))

/-- Python dict lookup `d[k]` / `k in d` on an insertion-ordered object. -/
def lookupKey : List (String × Json) → String → Option Json
  | [], _ => none
  | (k, v) :: t, key => if k = key then some v else lookupKey t key

/-- Python dict assignment `d[k] = v`: an existing key keeps its position,
a new key is appended. -/
def setKey : List (String × Json) → String → Json → List (String × Json)
  | [], key, v => [(key, v)]
  | (k, w) :: t, key, v =>
    if k = key then (key, v) :: t else (k, w) :: setKey t key v

/-- Content of `update.json` threaded through `update_json_file`: missing
file, malformed JSON, or a parsed document. -/
inductive UpdateFile where
  | missing
  | malformed (raw : List Nat)
  | valid (doc : Json)

/-- The `if '2025' not in data: data['2025'] = {'stats': {}, 'rankings': {}}`
step of `update_json_file`. -/
def ensure2025 (data : List (String × Json)) : List (String × Json) :=
  if (lookupKey data "2025").isSome then data
  else setKey data "2025" (Json.obj [("stats", Json.obj []), ("rankings", Json.obj [])])

/-- `update_json_file(stats)` from update-team-stats.py over an explicit file
content.  A missing file (`FileNotFoundError`) or malformed JSON
(`json.JSONDecodeError`) returns `False` with the file unchanged; a document
whose top level, or whose existing "2025" value, is not an object raises a
`TypeError` caught by the generic handler, again returning `False` before
any write; otherwise `data['2025']['stats']` is ensured and then assigned
and the document is written back. -/
def update_json_file (file : UpdateFile) (stats : Json) : Bool × UpdateFile :=
  match file with
  | .missing => (false, .missing)
  | .malformed raw => (false, .malformed raw)
  | .valid (Json.obj data) =>
    match lookupKey (ensure2025 data) "2025" with
    | some (Json.obj season) =>
      let season1 :=
        if (lookupKey season "stats").isSome then season
        else setKey season "stats" (Json.obj [])
      (true, .valid (Json.obj (setKey (ensure2025 data) "2025"
        (Json.obj (setKey season1 "stats" stats)))))
    | some _ => (false, .valid (Json.obj data))
    | none => (false, .valid (Json.obj data))
  | .valid doc => (false, .valid doc)

/-! ## `merge_all_stats` (fetch_playerstats_complete.py) -/

/-- A made/attempted/pct triple as returned by the API
(`player.get('fieldGoals', {})` and friends); `none` models an absent key. -/
structure ShotLine where
  made : Option ℚ
  attempted : Option ℚ
  pct : Option ℚ

/-- The rebounds sub-object. -/
structure ReboundLine where
  offensive : Option ℚ
  defensive : Option ℚ
  total : Option ℚ

/-- The fields of one season-stats player record that the derived-stat
computations of `merge_all_stats` read.  The identity and advanced-rating
fields are copied verbatim into the merged record and are represented by the
record itself. -/
structure PlayerSeasonRaw where
  athleteId : Option Nat
  games : Option ℚ
  minutes : Option ℚ
  points : Option ℚ
  turnovers : Option ℚ
  fouls : Option ℚ
  assists : Option ℚ
  steals : Option ℚ
  blocks : Option ℚ
  fieldGoals : ShotLine
  twoPointFieldGoals : ShotLine
  threePointFieldGoals : ShotLine
  freeThrows : ShotLine
  rebounds : ReboundLine
  effectiveFieldGoalPct : Option ℚ
  trueShootingPct : Option ℚ

/-- One record of the shooting-stats endpoint; its stat fields are copied
verbatim into the merged record's `shootingStats` block, so only the join
key matters here. -/
structure ShootingRaw where
  athleteId : Option Nat

/-- The `perGameAverages` block computed by `merge_all_stats`. -/
structure PerGameAverages where
  points : ℚ
  rebounds : ℚ
  offensiveRebounds : ℚ
  defensiveRebounds : ℚ
  assists : ℚ
  steals : ℚ
  blocks : ℚ
  turnovers : ℚ
  fouls : ℚ
  minutes : ℚ
  fieldGoalsMade : ℚ
  fieldGoalsAttempted : ℚ
  twoPointMade : ℚ
  twoPointAttempted : ℚ
  threePointMade : ℚ
  threePointAttempted : ℚ
  freeThrowsMade : ℚ
  freeThrowsAttempted : ℚ

/-- The `per40Stats` block computed by `merge_all_stats`. -/
structure Per40Stats where
  points : ℚ
  rebounds : ℚ
  offensiveRebounds : ℚ
  defensiveRebounds : ℚ
  assists : ℚ
  steals : ℚ
  blocks : ℚ
  turnovers : ℚ
  fouls : ℚ

/-- The `calculatedMetrics` block computed by `merge_all_stats`. -/
structure CalculatedMetrics where
  pointsPerShot : ℚ
  pointsPerPossession : ℚ
  shootingEfficiency : Option ℚ
  scoringEfficiency : Option ℚ
  assistPercentage : ℚ
  turnoverPercentage : ℚ
  reboundRate : ℚ

/-- Python `round(x, n)` on exact rationals.  Python's float round uses
round-half-to-even; `round` here rounds halves up.  The difference only
concerns exact ties and no claim depends on it. -/
def pyRound (ndigits : Nat) (q : ℚ) : ℚ :=
  (round (q * 10 ^ ndigits) : ℚ) / 10 ^ ndigits

/-- One merged player record: the copied season-stats fields plus the
conditionally-present derived blocks. -/
structure MergedPlayer where
  raw : PlayerSeasonRaw
  shootingStats : Option ShootingRaw
  perGameAverages : Option PerGameAverages
  per40Stats : Option Per40Stats
  calculatedMetrics : Option CalculatedMetrics

/-- The `shooting_lookup` dict of `merge_all_stats`: keyed by truthy
`athleteId`, later entries overwrite earlier ones. -/
def shooting_lookup (shooting_stats : List ShootingRaw) (aid : Nat) :
    Option ShootingRaw :=
  shooting_stats.foldl (fun acc s =>
    match s.athleteId with
    | some i => if i ≠ 0 ∧ i = aid then some s else acc
    | none => acc) none

/-- The per-player body of the `merge_all_stats` loop.  Division never
happens outside the positivity guards, and the rationals ℚ contain no
infinity or NaN. -/
def merge_player (player : PlayerSeasonRaw) (lookup : Nat → Option ShootingRaw) :
    MergedPlayer :=
  let games := player.games.getD 0
  let minutes := player.minutes.getD 0
  let fga := player.fieldGoals.attempted.getD 0
  let fta := player.freeThrows.attempted.getD 0
  let tov := player.turnovers.getD 0
  let possessions := fga + (11/25) * fta + tov
  { raw := player
    shootingStats :=
      match player.athleteId with
      | some aid => if aid ≠ 0 then lookup aid else none
      | none => none
    perGameAverages :=
      if games > 0 then some {
        points := pyRound 2 (player.points.getD 0 / games)
        rebounds := pyRound 2 (player.rebounds.total.getD 0 / games)
        offensiveRebounds := pyRound 2 (player.rebounds.offensive.getD 0 / games)
        defensiveRebounds := pyRound 2 (player.rebounds.defensive.getD 0 / games)
        assists := pyRound 2 (player.assists.getD 0 / games)
        steals := pyRound 2 (player.steals.getD 0 / games)
        blocks := pyRound 2 (player.blocks.getD 0 / games)
        turnovers := pyRound 2 (player.turnovers.getD 0 / games)
        fouls := pyRound 2 (player.fouls.getD 0 / games)
        minutes := pyRound 2 (player.minutes.getD 0 / games)
        fieldGoalsMade := pyRound 2 (player.fieldGoals.made.getD 0 / games)
        fieldGoalsAttempted := pyRound 2 (player.fieldGoals.attempted.getD 0 / games)
        twoPointMade := pyRound 2 (player.twoPointFieldGoals.made.getD 0 / games)
        twoPointAttempted := pyRound 2 (player.twoPointFieldGoals.attempted.getD 0 / games)
        threePointMade := pyRound 2 (player.threePointFieldGoals.made.getD 0 / games)
        threePointAttempted := pyRound 2 (player.threePointFieldGoals.attempted.getD 0 / games)
        freeThrowsMade := pyRound 2 (player.freeThrows.made.getD 0 / games)
        freeThrowsAttempted := pyRound 2 (player.freeThrows.attempted.getD 0 / games) }
      else none
    per40Stats :=
      if minutes > 0 then some {
        points := pyRound 2 (player.points.getD 0 * 40 / minutes)
        rebounds := pyRound 2 (player.rebounds.total.getD 0 * 40 / minutes)
        offensiveRebounds := pyRound 2 (player.rebounds.offensive.getD 0 * 40 / minutes)
        defensiveRebounds := pyRound 2 (player.rebounds.defensive.getD 0 * 40 / minutes)
        assists := pyRound 2 (player.assists.getD 0 * 40 / minutes)
        steals := pyRound 2 (player.steals.getD 0 * 40 / minutes)
        blocks := pyRound 2 (player.blocks.getD 0 * 40 / minutes)
        turnovers := pyRound 2 (player.turnovers.getD 0 * 40 / minutes)
        fouls := pyRound 2 (player.fouls.getD 0 * 40 / minutes) }
      else none
    calculatedMetrics :=
      if (fga > 0 ∨ fta > 0 ∨ tov > 0) ∧ possessions > 0 then some {
        pointsPerShot := pyRound 3 (player.points.getD 0 / max fga 1)
        pointsPerPossession := pyRound 3 (player.points.getD 0 / possessions)
        shootingEfficiency := player.effectiveFieldGoalPct
        scoringEfficiency := player.trueShootingPct
        assistPercentage := pyRound 2 ((player.assists.getD 0 / max possessions 1) * 100)
        turnoverPercentage := pyRound 2 ((tov / max possessions 1) * 100)
        reboundRate := pyRound 2 ((player.rebounds.total.getD 0 / max minutes 1) * 40) }
      else none }

/-- `merge_all_stats(season_stats, shooting_stats)` from
fetch_playerstats_complete.py. -/
def merge_all_stats (season_stats : List PlayerSeasonRaw)
    (shooting_stats : List ShootingRaw) : List MergedPlayer :=
  season_stats.map (fun p => merge_player p (shooting_lookup shooting_stats))

/-! ## `fetch_gamelog_complete.py`: organizing games and computing results -/

/-- Decimal rendering of an integer (Python f-string interpolation of a
score). -/
def intStr (i : Int) : List Nat :=
  strLit (toString i)

/-- The per-player stat dict appended to a game's `players` list by
`organize_complete_game_data`; the many verbatim-copied stat fields are
abbreviated to a representative payload, since no claim reads them. -/
structure PlayerLine where
  name : List Nat
  points : Option ℚ
  minutes : Option ℚ
deriving DecidableEq

/-- One player-game log entry from the `/games/players` endpoint. -/
structure PlayerLog where
  gameId : Option Nat
  line : PlayerLine
deriving DecidableEq

/-- One team-game log entry from the `/games/teams` endpoint, reduced to the
join key and the two `points.total` values that `calculate_game_results`
reads (`none` models an absent key). -/
structure TeamLog where
  gameId : Option Nat
  teamPointsTotal : Option Int
  oppPointsTotal : Option Int
deriving DecidableEq

/-- One organized game record: `teamStats.points.total`,
`opponentStats.points.total` and the accumulated `players` list. -/
structure GameRec where
  gameId : Nat
  teamPointsTotal : Option Int
  oppPointsTotal : Option Int
  players : List PlayerLine
deriving DecidableEq

/-- The `game_lookup` dict of `organize_complete_game_data`: keyed by truthy
`gameId`, later team logs overwrite earlier ones. -/
def game_lookup (team_logs : List TeamLog) (gid : Nat) : Option TeamLog :=
  team_logs.foldl (fun acc g =>
    match g.gameId with
    | some i => if i ≠ 0 ∧ i = gid then some g else acc
    | none => acc) none

/-- Lookup in the insertion-ordered `games_dict`. -/
def lookupGame : List (Nat × GameRec) → Nat → Option GameRec
  | [], _ => none
  | (k, v) :: t, gid => if k = gid then some v else lookupGame t gid

/-- `games_dict[game_id]['players'].append(...)`: append a player line to
the record stored under `gid`. -/
def appendPlayer (acc : List (Nat × GameRec)) (gid : Nat) (pl : PlayerLine) :
    List (Nat × GameRec) :=
  acc.map (fun kv =>
    if kv.1 = gid then (kv.1, { kv.2 with players := kv.2.players ++ [pl] }) else kv)

/-- The loop body of `organize_complete_game_data`: skip falsy game ids,
create the game record (with team stats from `game_lookup`) on first sight,
then append the player line. -/
def organizeStep (team_logs : List TeamLog) (acc : List (Nat × GameRec))
    (gl : PlayerLog) : List (Nat × GameRec) :=
  match gl.gameId with
  | none => acc
  | some gid =>
    if gid = 0 then acc
    else
      match lookupGame acc gid with
      | some _ => appendPlayer acc gid gl.line
      | none =>
        acc ++ [(gid,
          { gameId := gid
            teamPointsTotal := (game_lookup team_logs gid).bind TeamLog.teamPointsTotal
            oppPointsTotal := (game_lookup team_logs gid).bind TeamLog.oppPointsTotal
            players := [gl.line] })]

/-- `organize_complete_game_data(player_logs, team_logs)` from
fetch_gamelog_complete.py: `list(games_dict.values())` of the insertion-ordered
dict built by the loop. -/
def organize_complete_game_data (player_logs : List PlayerLog)
    (team_logs : List TeamLog) : List GameRec :=
  (player_logs.foldl (organizeStep team_logs) []).map Prod.snd

/-- A game record after `calculate_game_results` added its result fields
(the function mutates each dict in place; the verbatim-copied
`scoringByPeriod`/`gameFlow` blocks are not modeled). -/
structure FinalGame where
  base : GameRec
  result : List Nat
  finalScore : List Nat
  pointDifferential : Int
  teamScore : Int
  opponentScore : Int
deriving DecidableEq

/-- The per-game body of `calculate_game_results`: missing totals default to
0, a strictly greater team total gives "W", anything else gives "L". -/
def calcGame (game : GameRec) : FinalGame :=
  let team_points := game.teamPointsTotal.getD 0
  let opponent_points := game.oppPointsTotal.getD 0
  if team_points > opponent_points then
    { base := game
      result := strLit "W"
      finalScore := strLit "W " ++ intStr team_points ++ strLit "-" ++ intStr opponent_points
      pointDifferential := team_points - opponent_points
      teamScore := team_points
      opponentScore := opponent_points }
  else
    { base := game
      result := strLit "L"
      finalScore := strLit "L " ++ intStr team_points ++ strLit "-" ++ intStr opponent_points
      pointDifferential := team_points - opponent_points
      teamScore := team_points
      opponentScore := opponent_points }

/-- `calculate_game_results(games)` from fetch_gamelog_complete.py. -/
def calculate_game_results (games : List GameRec) : List FinalGame :=
  games.map calcGame

/-! ## Result strings in fetch_schedule.py and update-schedule-results.py -/

/-- One raw API game as read by `get_game_result` in fetch_schedule.py
(dict-indexed fields, accessed unconditionally). -/
structure SchedApiGame where
  status : List Nat
  homeTeamId : Nat
  homePoints : Int
  awayPoints : Int
deriving DecidableEq

/-- `get_game_result(game, kentucky_team_id=135)` from fetch_schedule.py. -/
def get_game_result (game : SchedApiGame) (kentucky_team_id : Nat := 135) :
    List Nat :=
  if game.status ≠ strLit "final" then strLit "TBD"
  else
    let uk_score :=
      if game.homeTeamId = kentucky_team_id then game.homePoints else game.awayPoints
    let opp_score :=
      if game.homeTeamId = kentucky_team_id then game.awayPoints else game.homePoints
    if uk_score > opp_score then
      strLit "W " ++ intStr uk_score ++ strLit "-" ++ intStr opp_score
    else
      strLit "L " ++ intStr uk_score ++ strLit "-" ++ intStr opp_score

/-- One game object from the CBBD client as read by `fetch_kentucky_games`
in update-schedule-results.py (`status` may be `None`; `str(status)` of a
string status is itself). -/
structure CbbdGame where
  home_team : List Nat
  away_team : List Nat
  home_points : Int
  away_points : Int
  status : Option (List Nat)
deriving DecidableEq

/-- The result computation inside the `fetch_kentucky_games` loop of
update-schedule-results.py: a truthy status whose lower-casing is "final"
yields a W/L score string, anything else yields "TBD". -/
def fetch_kentucky_games_result (game : CbbdGame) : List Nat :=
  let is_home := game.home_team = strLit "Kentucky"
  let uk_score := if is_home then game.home_points else game.away_points
  let opp_score := if is_home then game.away_points else game.home_points
  match game.status with
  | some s =>
    if s ≠ [] ∧ lowerStr s = strLit "final" then
      if uk_score > opp_score then
        strLit "W " ++ intStr uk_score ++ strLit "-" ++ intStr opp_score
      else
        strLit "L " ++ intStr uk_score ++ strLit "-" ++ intStr opp_score
    else strLit "TBD"
  | none => strLit "TBD"

/-! ## Output files of update-player-stats.py and fetch_gamelog_complete.py -/

/-- The `output_data` dict literal of `save_players_json` in
update-player-stats.py; `now` is `datetime.now().isoformat()`. -/
def save_players_fields (players_data : List Json) (now : List Nat) :
    List (String × Json) :=
  [("lastUpdated", Json.str now),
   ("season", Json.num 2026),
   ("seasonLabel", Json.str (strLit "2025-2026")),
   ("team", Json.str (strLit "Kentucky")),
   ("playerCount", Json.num players_data.length),
   ("players", Json.arr players_data)]

/-- The JSON document `save_players_json` serializes. -/
def save_players_output (players_data : List Json) (now : List Nat) : Json :=
  Json.obj (save_players_fields players_data now)

/-- `save_players_json` writes with `open(path, 'w')`, which truncates: the
resulting file content is the serialized output document, regardless of the
previous content. -/
def save_players_json ( _previous : Option Json) (players_data : List Json)
    (now : List Nat) : Option Json :=
  some (save_players_output players_data now)

/-- The `output` dict literal of `main` in fetch_gamelog_complete.py;
`seasons` maps each year to its per-season bundle. -/
def gamelog_fields (seasons : List (Nat × Json)) (now : List Nat) :
    List (String × Json) :=
  [("lastUpdated", Json.str now),
   ("team", Json.str (strLit "Kentucky")),
   ("dataSource", Json.str (strLit "https://api.collegebasketballdata.com")),
   ("seasonsIncluded", Json.arr (seasons.map (fun p => Json.num p.1))),
   ("totalSeasons", Json.num seasons.length),
   ("seasons", Json.obj (seasons.map (fun p => (toString p.1, p.2))))]

/-- The JSON document `main` of fetch_gamelog_complete.py serializes. -/
def gamelog_output (seasons : List (Nat × Json)) (now : List Nat) : Json :=
  Json.obj (gamelog_fields seasons now)

/-- The final write of fetch_gamelog_complete.py, again truncating. -/
def gamelog_write ( _previous : Option Json) (seasons : List (Nat × Json))
    (now : List Nat) : Option Json :=
  some (gamelog_output seasons now)

/-! ## Lemmas and claim verification -/

theorem pyIndex_lt_length {v : ℚ} : ∀ {l : List ℚ} {i : Nat},
    pyIndex v l = some i → i < l.length := by
  intro l
  induction l with
  | nil => intro i h; simp [pyIndex] at h
  | cons w t ih =>
    intro i h
    simp only [pyIndex] at h
    split at h
    · simp only [Option.some.injEq] at h
      simp only [List.length_cons]
      omega
    · cases hpy : pyIndex v t with
      | none => rw [hpy] at h; exact absurd h (by simp)
      | some j =>
        rw [hpy] at h
        simp only [Option.some.injEq] at h
        have := ih hpy
        simp only [List.length_cons]
        omega

theorem scanPos_lt_length {v : ℚ} {hib : Bool} : ∀ {l : List ℚ} {i : Nat},
    scanPos v hib l = some i → i < l.length := by
  intro l
  induction l with
  | nil => intro i h; simp [scanPos] at h
  | cons w t ih =>
    intro i h
    simp only [scanPos] at h
    split at h
    · simp only [Option.some.injEq] at h
      simp only [List.length_cons]
      omega
    · cases hsc : scanPos v hib t with
      | none => rw [hsc] at h; exact absurd h (by simp)
      | some j =>
        rw [hsc] at h
        simp only [Option.some.injEq] at h
        have := ih hsc
        simp only [List.length_cons]
        omega

theorem pyIndex_eq_none_iff {v : ℚ} : ∀ {l : List ℚ}, pyIndex v l = none ↔ v ∉ l := by
  intro l
  induction l with
  | nil => simp [pyIndex]
  | cons w t ih =>
    by_cases hw : w = v
    · simp [pyIndex, hw]
    · simp only [pyIndex, if_neg hw, List.mem_cons]
      cases hpy : pyIndex v t with
      | none =>
        have hvt : v ∉ t := ih.mp hpy
        constructor
        · intro _ hmem
          rcases hmem with h1 | h2
          · exact hw h1.symm
          · exact hvt h2
        · intro _
          rfl
      | some j =>
        have hvt : v ∈ t := by
          by_contra hvn
          rw [ih.mpr hvn] at hpy
          exact Option.noConfusion hpy
        constructor
        · intro h
          exact Option.noConfusion h
        · intro h
          exact absurd (Or.inr hvt) h

theorem pyIndex_cons_zero {v w : ℚ} {t : List ℚ}
    (h : pyIndex v (w :: t) = some 0) : w = v := by
  by_cases hw : w = v
  · exact hw
  · simp only [pyIndex, if_neg hw] at h
    cases hpy : pyIndex v t with
    | none => rw [hpy] at h; exact absurd h (by simp)
    | some j => rw [hpy] at h; simp at h

theorem rankFrom_pos (v : ℚ) (hib : Bool) (S : List ℚ) : 1 ≤ rankFrom v hib S := by
  unfold rankFrom
  split <;> try omega
  split <;> omega

theorem rankFrom_le (v : ℚ) (hib : Bool) (S : List ℚ) :
    rankFrom v hib S ≤ S.length + 1 := by
  unfold rankFrom
  split
  · next i h =>
    have := pyIndex_lt_length h
    omega
  · split
    · next i h =>
      have := scanPos_lt_length h
      omega
    · omega

theorem rankFrom_eq_one_iff_desc {v : ℚ} {S : List ℚ} (hne : S ≠ [])
    (hsort : List.Sorted (· ≥ ·) S) :
    rankFrom v true S = 1 ↔ ∀ w ∈ S, w ≤ v := by
  obtain ⟨w₀, t, rfl⟩ : ∃ w₀ t, S = w₀ :: t := by
    cases S with
    | nil => exact absurd rfl hne
    | cons a l => exact ⟨a, l, rfl⟩
  have hhead : ∀ w ∈ t, w ≤ w₀ := List.rel_of_sorted_cons hsort
  constructor
  · intro h
    unfold rankFrom at h
    split at h
    · next i hpy =>
      have hi : i = 0 := by omega
      subst hi
      have hw : w₀ = v := pyIndex_cons_zero hpy
      intro w hw'
      rcases List.mem_cons.mp hw' with rfl | hmem
      · exact le_of_eq hw
      · exact hw ▸ hhead w hmem
    · rename_i hpy
      split at h
      · next i hsc =>
        have hi : i = 0 := by omega
        subst hi
        simp only [scanPos, Bool.true_and, Bool.not_true, Bool.false_and,
          Bool.or_false] at hsc
        split at hsc
        · next hcond =>
          have hle : w₀ ≤ v := by
            simpa using hcond
          intro w hw'
          rcases List.mem_cons.mp hw' with rfl | hmem
          · exact hle
          · exact le_trans (hhead w hmem) hle
        · cases hsc' : scanPos v true t with
          | none => rw [hsc'] at hsc; simp at hsc
          | some j => rw [hsc'] at hsc; simp at hsc
      · simp at h
  · intro hbest
    have hw₀ : w₀ ≤ v := hbest w₀ (List.mem_cons_self _ _)
    by_cases heq : w₀ = v
    · unfold rankFrom
      have : pyIndex v (w₀ :: t) = some 0 := by simp [pyIndex, heq]
      rw [this]
    · have hnmem : v ∉ w₀ :: t := by
        intro hmem
        rcases List.mem_cons.mp hmem with rfl | hmem'
        · exact heq rfl
        · exact heq (le_antisymm hw₀ (hhead v hmem'))
      unfold rankFrom
      rw [pyIndex_eq_none_iff.mpr hnmem]
      have : scanPos v true (w₀ :: t) = some 0 := by
        simp [scanPos, hw₀]
      rw [this]

theorem rankFrom_eq_one_iff_asc {v : ℚ} {S : List ℚ} (hne : S ≠ [])
    (hsort : List.Sorted (· ≤ ·) S) :
    rankFrom v false S = 1 ↔ ∀ w ∈ S, v ≤ w := by
  obtain ⟨w₀, t, rfl⟩ : ∃ w₀ t, S = w₀ :: t := by
    cases S with
    | nil => exact absurd rfl hne
    | cons a l => exact ⟨a, l, rfl⟩
  have hhead : ∀ w ∈ t, w₀ ≤ w := List.rel_of_sorted_cons hsort
  constructor
  · intro h
    unfold rankFrom at h
    split at h
    · next i hpy =>
      have hi : i = 0 := by omega
      subst hi
      have hw : w₀ = v := pyIndex_cons_zero hpy
      intro w hw'
      rcases List.mem_cons.mp hw' with rfl | hmem
      · exact le_of_eq hw.symm
      · exact hw ▸ hhead w hmem
    · rename_i hpy
      split at h
      · next i hsc =>
        have hi : i = 0 := by omega
        subst hi
        simp only [scanPos, Bool.false_and, Bool.not_false, Bool.true_and,
          Bool.false_or] at hsc
        split at hsc
        · next hcond =>
          have hle : v ≤ w₀ := by
            simpa using hcond
          intro w hw'
          rcases List.mem_cons.mp hw' with rfl | hmem
          · exact hle
          · exact le_trans hle (hhead w hmem)
        · cases hsc' : scanPos v false t with
          | none => rw [hsc'] at hsc; simp at hsc
          | some j => rw [hsc'] at hsc; simp at hsc
      · simp at h
  · intro hbest
    have hw₀ : v ≤ w₀ := hbest w₀ (List.mem_cons_self _ _)
    by_cases heq : w₀ = v
    · unfold rankFrom
      have : pyIndex v (w₀ :: t) = some 0 := by simp [pyIndex, heq]
      rw [this]
    · have hnmem : v ∉ w₀ :: t := by
        intro hmem
        rcases List.mem_cons.mp hmem with rfl | hmem'
        · exact heq rfl
        · exact heq (le_antisymm (hhead v hmem') hw₀)
      unfold rankFrom
      rw [pyIndex_eq_none_iff.mpr hnmem]
      have : scanPos v false (w₀ :: t) = some 0 := by
        simp [scanPos, hw₀]
      rw [this]

/-- C1 counterexample: for value `1` and population `[2]` (one valid entry)
with `higher_is_better`, `calculate_rank` returns `2`, which exceeds the
population size `1`; the claim's bound `rank ≤ population size` is false. -/
theorem calculate_rank_exceeds_population :
    calculate_rank (some 1) [some 2] true = 2 ∧
      ([some (2 : ℚ)] : List (Option ℚ)).length = 1 := by
  constructor
  · decide
  · rfl

/-- C1 (amended): `calculate_rank` returns `0` when the value is `None` or
`0` or when the population has no valid (non-`None`, nonzero) entry;
otherwise it returns a 1-based rank that is at least `1` and at most one
more than the number of valid entries (hence at most population size + 1 —
it can exceed the population size by one when the value is strictly worse
than every valid entry), and a rank of `1` holds exactly when the value is
at least as good as every valid entry under the given polarity. -/
theorem calculate_rank_spec :
    (∀ all hib, calculate_rank none all hib = 0) ∧
    (∀ all hib, calculate_rank (some 0) all hib = 0) ∧
    (∀ v all hib, validValues all = [] → calculate_rank (some v) all hib = 0) ∧
    (∀ (v : ℚ) all hib, v ≠ 0 → validValues all ≠ [] →
      1 ≤ calculate_rank (some v) all hib ∧
      calculate_rank (some v) all hib ≤ (validValues all).length + 1 ∧
      (calculate_rank (some v) all hib = 1 ↔
        ∀ w ∈ validValues all, if hib then w ≤ v else v ≤ w)) := by
  refine ⟨fun all hib => rfl, fun all hib => by simp [calculate_rank], ?_, ?_⟩
  · intro v all hib hempty
    have hemp : (validValues all).isEmpty = true := by
      rw [hempty]; rfl
    simp [calculate_rank, hemp]
  · intro v all hib hv hne
    have hrw : calculate_rank (some v) all hib =
        rankFrom v hib (sortedValues hib (validValues all)) := by
      simp [calculate_rank, hv, List.isEmpty_iff, hne]
    rw [hrw]
    set S := sortedValues hib (validValues all) with hS
    have hperm : ∀ w, w ∈ S ↔ w ∈ validValues all := by
      intro w
      cases hib <;> simp [sortedValues, hS, List.mem_insertionSort]
    have hlen : S.length = (validValues all).length := by
      cases hib <;> simp [sortedValues, hS, List.length_insertionSort]
    have hSne : S ≠ [] := by
      intro hcontra
      apply hne
      have := hlen
      rw [hcontra] at this
      exact List.length_eq_zero.mp this.symm
    refine ⟨rankFrom_pos v hib S, le_trans (rankFrom_le v hib S) (by omega), ?_⟩
    cases hib with
    | true =>
      have hsort : List.Sorted (· ≥ ·) S := by
        simpa [sortedValues, hS] using
          List.sorted_insertionSort ((· ≥ ·) : ℚ → ℚ → Prop) (validValues all)
      rw [rankFrom_eq_one_iff_desc hSne hsort]
      simp only [if_pos rfl]
      constructor
      · intro h w hw
        exact h w ((hperm w).mpr hw)
      · intro h w hw
        exact h w ((hperm w).mp hw)
    | false =>
      have hsort : List.Sorted (· ≤ ·) S := by
        simpa [sortedValues, hS] using
          List.sorted_insertionSort ((· ≤ ·) : ℚ → ℚ → Prop) (validValues all)
      rw [rankFrom_eq_one_iff_asc hSne hsort]
      simp only [Bool.false_eq_true, if_neg]
      constructor
      · intro h w hw
        exact h w ((hperm w).mpr hw)
      · intro h w hw
        exact h w ((hperm w).mp hw)

/-! ## String-function lemmas shared by the normalization claims -/

theorem replaceAllAux_fuel_irrel (old new : List Nat) :
    ∀ fuel₁ fuel₂ s, s.length ≤ fuel₁ → s.length ≤ fuel₂ →
      replaceAllAux old new fuel₁ s = replaceAllAux old new fuel₂ s := by
  intro fuel₁
  induction fuel₁ with
  | zero =>
    intro fuel₂ s h₁ _
    have hs : s = [] := List.eq_nil_of_length_eq_zero (Nat.le_zero.mp h₁)
    subst hs
    cases fuel₂ <;> rfl
  | succ f ih =>
    intro fuel₂ s h₁ h₂
    cases s with
    | nil => cases fuel₂ <;> rfl
    | cons c t =>
      cases fuel₂ with
      | zero => simp at h₂
      | succ f₂ =>
        simp only [List.length_cons] at h₁ h₂
        simp only [replaceAllAux]
        have h₁' : t.length ≤ f := by omega
        have h₂' : t.length ≤ f₂ := by omega
        have hdl : (t.drop (old.length - 1)).length ≤ t.length := by
          simp [List.length_drop]
        split
        · exact congrArg (new ++ ·) (ih f₂ _ (le_trans hdl h₁') (le_trans hdl h₂'))
        · exact congrArg (c :: ·) (ih f₂ t h₁' h₂')

theorem replaceAll_cons (old new : List Nat) (c : Nat) (t : List Nat) :
    replaceAll old new (c :: t) =
      if old.isPrefixOf (c :: t) ∧ old ≠ [] then
        new ++ replaceAll old new (t.drop (old.length - 1))
      else c :: replaceAll old new t := by
  show replaceAllAux old new (c :: t).length (c :: t) = _
  simp only [List.length_cons, replaceAllAux]
  split
  · exact congrArg (new ++ ·)
      (replaceAllAux_fuel_irrel old new t.length _ _ (by simp [List.length_drop]) le_rfl)
  · rfl

theorem replaceAll_eq_self_of_not_contains (old new : List Nat) :
    ∀ s, containsSub s old = false → replaceAll old new s = s := by
  intro s
  induction s with
  | nil => intro _; rfl
  | cons c t ih =>
    intro h
    have hp : old.isPrefixOf (c :: t) = false := by
      by_cases hp' : old.isPrefixOf (c :: t)
      · rw [containsSub, if_pos hp'] at h
        exact absurd h (by simp)
      · cases hpb : old.isPrefixOf (c :: t)
        · rfl
        · exact absurd hpb hp'
    have ht : containsSub t old = false := by
      rwa [containsSub, if_neg (by simp [hp])] at h
    rw [replaceAll_cons, if_neg (by simp [hp]), ih ht]

theorem mem_replaceAll_bounded (old new : List Nat) :
    ∀ (n : Nat) (s : List Nat), s.length ≤ n →
      ∀ a ∈ replaceAll old new s, a ∈ s ∨ a ∈ new := by
  intro n
  induction n with
  | zero =>
    intro s h a ha
    have hs : s = [] := List.eq_nil_of_length_eq_zero (Nat.le_zero.mp h)
    subst hs
    exact absurd ha (by simp [replaceAll, replaceAllAux])
  | succ n ih =>
    intro s h a ha
    cases s with
    | nil => exact absurd ha (by simp [replaceAll, replaceAllAux])
    | cons c t =>
      simp only [List.length_cons] at h
      rw [replaceAll_cons] at ha
      split at ha
      · rcases List.mem_append.mp ha with hnew | hrec
        · exact Or.inr hnew
        · have hlen : (t.drop (old.length - 1)).length ≤ n := by
            simp only [List.length_drop]
            omega
          rcases ih _ hlen a hrec with hs | hnew
          · exact Or.inl (List.mem_cons_of_mem c (List.drop_subset _ _ hs))
          · exact Or.inr hnew
      · rcases List.mem_cons.mp ha with rfl | hrec
        · exact Or.inl (List.mem_cons_self _ _)
        · rcases ih t (by omega) a hrec with hs | hnew
          · exact Or.inl (List.mem_cons_of_mem _ hs)
          · exact Or.inr hnew

theorem mem_replaceAll (old new : List Nat) (s : List Nat) :
    ∀ a ∈ replaceAll old new s, a ∈ s ∨ a ∈ new :=
  mem_replaceAll_bounded old new s.length s le_rfl

theorem not_mem_replaceAll_single_bounded (p : Nat) :
    ∀ (n : Nat) (s : List Nat), s.length ≤ n → p ∉ replaceAll [p] [] s := by
  intro n
  induction n with
  | zero =>
    intro s h
    have hs : s = [] := List.eq_nil_of_length_eq_zero (Nat.le_zero.mp h)
    subst hs
    simp [replaceAll, replaceAllAux]
  | succ n ih =>
    intro s h
    cases s with
    | nil => simp [replaceAll, replaceAllAux]
    | cons c t =>
      simp only [List.length_cons] at h
      rw [replaceAll_cons]
      by_cases hc : p = c
      · subst hc
        have hpre : ([p] : List Nat).isPrefixOf (p :: t) = true := by
          simp [List.isPrefixOf]
        rw [if_pos (by simp [hpre])]
        simpa using ih t (by omega)
      · have hpre : ([p] : List Nat).isPrefixOf (c :: t) = false := by
          simp [List.isPrefixOf]
          exact hc
        rw [if_neg (by simp [hpre])]
        intro hmem
        rcases List.mem_cons.mp hmem with h1 | h2
        · exact hc h1
        · exact ih t (by omega) h2

theorem not_mem_replaceAll_single (p : Nat) (s : List Nat) :
    p ∉ replaceAll [p] [] s :=
  not_mem_replaceAll_single_bounded p s.length s le_rfl

theorem containsSub_single_eq_false {p : Nat} : ∀ {s : List Nat}, p ∉ s →
    containsSub s [p] = false := by
  intro s
  induction s with
  | nil => intro _; rfl
  | cons c t ih =>
    intro h
    have hc : p ≠ c := fun hcontra => h (hcontra ▸ List.mem_cons_self _ _)
    have hpre : ([p] : List Nat).isPrefixOf (c :: t) = false := by
      simp [List.isPrefixOf]
      exact hc
    rw [containsSub, if_neg (by simp [hpre])]
    exact ih (fun hmem => h (List.mem_cons_of_mem _ hmem))

theorem pyWordsAux_fuel_irrel :
    ∀ fuel₁ fuel₂ s, s.length ≤ fuel₁ → s.length ≤ fuel₂ →
      pyWordsAux fuel₁ s = pyWordsAux fuel₂ s := by
  intro fuel₁
  induction fuel₁ with
  | zero =>
    intro fuel₂ s h₁ _
    have hs : s = [] := List.eq_nil_of_length_eq_zero (Nat.le_zero.mp h₁)
    subst hs
    cases fuel₂ <;> rfl
  | succ f ih =>
    intro fuel₂ s h₁ h₂
    cases s with
    | nil => cases fuel₂ <;> rfl
    | cons c t =>
      cases fuel₂ with
      | zero => simp at h₂
      | succ f₂ =>
        simp only [List.length_cons] at h₁ h₂
        simp only [pyWordsAux]
        have h₁' : t.length ≤ f := by omega
        have h₂' : t.length ≤ f₂ := by omega
        have hdl : (t.dropWhile (fun x => !pyIsSpace x)).length ≤ t.length :=
          (List.dropWhile_sublist _).length_le
        split
        · exact ih f₂ t h₁' h₂'
        · exact congrArg (_ :: ·) (ih f₂ _ (le_trans hdl h₁') (le_trans hdl h₂'))

theorem pyWords_cons (c : Nat) (t : List Nat) :
    pyWords (c :: t) =
      if pyIsSpace c then pyWords t
      else (c :: t.takeWhile (fun x => !pyIsSpace x)) ::
        pyWords (t.dropWhile (fun x => !pyIsSpace x)) := by
  show pyWordsAux (c :: t).length (c :: t) = _
  simp only [List.length_cons, pyWordsAux]
  split
  · rfl
  · exact congrArg (_ :: ·)
      (pyWordsAux_fuel_irrel t.length _ _ ((List.dropWhile_sublist _).length_le) le_rfl)

theorem pyWords_words_spec :
    ∀ (n : Nat) (s : List Nat), s.length ≤ n →
      ∀ w ∈ pyWords s, w ≠ [] ∧ ∀ a ∈ w, pyIsSpace a = false := by
  intro n
  induction n with
  | zero =>
    intro s h w hw
    have hs : s = [] := List.eq_nil_of_length_eq_zero (Nat.le_zero.mp h)
    subst hs
    exact absurd hw (by simp [pyWords, pyWordsAux])
  | succ n ih =>
    intro s h w hw
    cases s with
    | nil => exact absurd hw (by simp [pyWords, pyWordsAux])
    | cons c t =>
      simp only [List.length_cons] at h
      rw [pyWords_cons] at hw
      split at hw
      · exact ih t (by omega) w hw
      · next hsp =>
        rcases List.mem_cons.mp hw with rfl | hrec
        · refine ⟨by simp, ?_⟩
          intro a ha
          rcases List.mem_cons.mp ha with rfl | hmem
          · simpa using hsp
          · have := List.mem_takeWhile_imp hmem
            simpa using this
        · have hdl : (t.dropWhile (fun x => !pyIsSpace x)).length ≤ n :=
            le_trans ((List.dropWhile_sublist _).length_le) (by omega)
          exact ih _ hdl w hrec

theorem mem_of_mem_pyWords :
    ∀ (n : Nat) (s : List Nat), s.length ≤ n →
      ∀ w ∈ pyWords s, ∀ a ∈ w, a ∈ s := by
  intro n
  induction n with
  | zero =>
    intro s h w hw
    have hs : s = [] := List.eq_nil_of_length_eq_zero (Nat.le_zero.mp h)
    subst hs
    exact absurd hw (by simp [pyWords, pyWordsAux])
  | succ n ih =>
    intro s h w hw a ha
    cases s with
    | nil => exact absurd hw (by simp [pyWords, pyWordsAux])
    | cons c t =>
      simp only [List.length_cons] at h
      rw [pyWords_cons] at hw
      split at hw
      · exact List.mem_cons_of_mem c (ih t (by omega) w hw a ha)
      · rcases List.mem_cons.mp hw with rfl | hrec
        · rcases List.mem_cons.mp ha with rfl | hmem
          · exact List.mem_cons_self _ _
          · exact List.mem_cons_of_mem c ((List.takeWhile_sublist _).subset hmem)
        · have hdl : (t.dropWhile (fun x => !pyIsSpace x)).length ≤ n :=
            le_trans ((List.dropWhile_sublist _).length_le) (by omega)
          exact List.mem_cons_of_mem c
            (List.dropWhile_subset _ (ih _ hdl w hrec a ha))

theorem pyWords_single {w : List Nat} (hw : w ≠ [])
    (hs : ∀ a ∈ w, pyIsSpace a = false) : pyWords w = [w] := by
  obtain ⟨c, t, rfl⟩ : ∃ c t, w = c :: t := by
    cases w with
    | nil => exact absurd rfl hw
    | cons a l => exact ⟨a, l, rfl⟩
  have hc : pyIsSpace c = false := hs c (List.mem_cons_self _ _)
  have ht : ∀ a ∈ t, (fun x => !pyIsSpace x) a = true := by
    intro a ha
    simp [hs a (List.mem_cons_of_mem c ha)]
  rw [pyWords_cons, if_neg (by simp [hc])]
  have htake : t.takeWhile (fun x => !pyIsSpace x) = t := by
    have h0 : (t ++ ([] : List Nat)).takeWhile (fun x => !pyIsSpace x) =
        t ++ ([] : List Nat).takeWhile (fun x => !pyIsSpace x) :=
      List.takeWhile_append_of_pos ht
    simpa using h0
  have hdrop : t.dropWhile (fun x => !pyIsSpace x) = [] := by
    have h0 : (t ++ ([] : List Nat)).dropWhile (fun x => !pyIsSpace x) =
        ([] : List Nat).dropWhile (fun x => !pyIsSpace x) :=
      List.dropWhile_append_of_pos ht
    simpa using h0
  rw [htake, hdrop]
  rfl

theorem pyWords_word_sep {w : List Nat} (r : List Nat) (hw : w ≠ [])
    (hs : ∀ a ∈ w, pyIsSpace a = false) :
    pyWords (w ++ 32 :: r) = w :: pyWords r := by
  obtain ⟨c, t, rfl⟩ : ∃ c t, w = c :: t := by
    cases w with
    | nil => exact absurd rfl hw
    | cons a l => exact ⟨a, l, rfl⟩
  have hc : pyIsSpace c = false := hs c (List.mem_cons_self _ _)
  have ht : ∀ a ∈ t, (fun x => !pyIsSpace x) a = true := by
    intro a ha
    simp [hs a (List.mem_cons_of_mem c ha)]
  rw [List.cons_append, pyWords_cons, if_neg (by simp [hc])]
  have htake : (t ++ 32 :: r).takeWhile (fun x => !pyIsSpace x) = t := by
    rw [List.takeWhile_append_of_pos ht]
    simp [pyIsSpace]
  have hdrop : (t ++ 32 :: r).dropWhile (fun x => !pyIsSpace x) = 32 :: r := by
    rw [List.dropWhile_append_of_pos ht]
    simp [pyIsSpace]
  rw [htake, hdrop, pyWords_cons, if_pos (by simp [pyIsSpace])]

theorem joinSp_cons_of_ne {w : List Nat} {ws : List (List Nat)} (h : ws ≠ []) :
    joinSp (w :: ws) = w ++ 32 :: joinSp ws := by
  cases ws with
  | nil => exact absurd rfl h
  | cons w' rest => rfl

theorem pyWords_joinSp :
    ∀ (ws : List (List Nat)),
      (∀ w ∈ ws, w ≠ [] ∧ ∀ a ∈ w, pyIsSpace a = false) →
      pyWords (joinSp ws) = ws := by
  intro ws
  induction ws with
  | nil => intro _; rfl
  | cons w rest ih =>
    intro h
    cases rest with
    | nil =>
      have hw := h w (List.mem_cons_self _ _)
      exact pyWords_single hw.1 hw.2
    | cons w' rest' =>
      have hw := h w (List.mem_cons_self _ _)
      rw [joinSp_cons_of_ne (by simp), pyWords_word_sep _ hw.1 hw.2,
        ih (fun x hx => h x (List.mem_cons_of_mem _ hx))]

theorem mem_joinSp :
    ∀ (ws : List (List Nat)) (a : Nat), a ∈ joinSp ws →
      (∃ w ∈ ws, a ∈ w) ∨ a = 32 := by
  intro ws
  induction ws with
  | nil => intro a ha; exact absurd ha (by simp [joinSp])
  | cons w rest ih =>
    intro a ha
    cases rest with
    | nil => exact Or.inl ⟨w, List.mem_cons_self _ _, ha⟩
    | cons w' rest' =>
      rw [joinSp_cons_of_ne (by simp)] at ha
      rcases List.mem_append.mp ha with hw | hrec
      · exact Or.inl ⟨w, List.mem_cons_self _ _, hw⟩
      · rcases List.mem_cons.mp hrec with rfl | hjoin
        · exact Or.inr rfl
        · rcases ih a hjoin with ⟨x, hx, hax⟩ | h32
          · exact Or.inl ⟨x, List.mem_cons_of_mem _ hx, hax⟩
          · exact Or.inr h32

theorem lowerCode_lowerCode (n : Nat) : lowerCode (lowerCode n) = lowerCode n := by
  by_cases h : 65 ≤ n ∧ n ≤ 90
  · have h1 : lowerCode n = n + 32 := by simp [lowerCode, h]
    rw [h1, lowerCode, if_neg (by omega)]
  · have h1 : lowerCode n = n := by simp [lowerCode, h]
    rw [h1, h1]

theorem map_eq_self_of_fixed {α : Type} (f : α → α) :
    ∀ (l : List α), (∀ a ∈ l, f a = a) → l.map f = l := by
  intro l
  induction l with
  | nil => intro _; rfl
  | cons c t ih =>
    intro h
    simp only [List.map_cons]
    rw [h c (List.mem_cons_self _ _), ih (fun a ha => h a (List.mem_cons_of_mem _ ha))]

theorem lowerCode_of_mem_lowerStr {a : Nat} {s : List Nat} (h : a ∈ lowerStr s) :
    lowerCode a = a := by
  rcases List.mem_map.mp h with ⟨b, _, rfl⟩
  exact lowerCode_lowerCode b

theorem mem_foldl_replaceAll :
    ∀ (reps : List (List Nat × List Nat)) (s : List Nat) (a : Nat),
      a ∈ reps.foldl (fun acc p => replaceAll p.1 p.2 acc) s →
      a ∈ s ∨ ∃ p ∈ reps, a ∈ p.2 := by
  intro reps
  induction reps with
  | nil => intro s a ha; exact Or.inl ha
  | cons p rest ih =>
    intro s a ha
    simp only [List.foldl_cons] at ha
    rcases ih _ a ha with h1 | ⟨q, hq, haq⟩
    · rcases mem_replaceAll p.1 p.2 s a h1 with hs | hnew
      · exact Or.inl hs
      · exact Or.inr ⟨p, List.mem_cons_self _ _, hnew⟩
    · exact Or.inr ⟨q, List.mem_cons_of_mem _ hq, haq⟩

theorem foldl_replaceAll_eq_self :
    ∀ (reps : List (List Nat × List Nat)) (s : List Nat),
      (∀ p ∈ reps, containsSub s p.1 = false) →
      reps.foldl (fun acc p => replaceAll p.1 p.2 acc) s = s := by
  intro reps
  induction reps with
  | nil => intro s _; rfl
  | cons p rest ih =>
    intro s h
    simp only [List.foldl_cons]
    rw [replaceAll_eq_self_of_not_contains p.1 p.2 s (h p (List.mem_cons_self _ _))]
    exact ih s (fun q hq => h q (List.mem_cons_of_mem _ hq))

/-- The replacement values of the alias table are already lower-case. -/
theorem ntn_values_lower : ∀ p ∈ ntnReplacements, ∀ a ∈ p.2, lowerCode a = a := by
  decide

/-- Conditional idempotency: if the normalized form of a name contains no
alias-table key as a substring, then normalizing again is the identity. -/
theorem normalize_team_name_idem_aux (s : List Nat)
    (h : ∀ p ∈ ntnReplacements, containsSub (normalize_team_name s) p.1 = false) :
    normalize_team_name (normalize_team_name s) = normalize_team_name s := by
  set n2 := ntnReplacements.foldl (fun acc p => replaceAll p.1 p.2 acc) (lowerStr s) with hn2
  set n3 := replaceAll [46] [] n2 with hn3
  set n4 := replaceAll [39] [] n3 with hn4
  set n5 := replaceAll [40] [] n4 with hn5
  set n6 := replaceAll [41] [] n5 with hn6
  have hu : normalize_team_name s = joinSp (pyWords n6) := rfl
  set u := normalize_team_name s with hudef
  have hu_n6 : ∀ a ∈ u, a ∈ n6 ∨ a = 32 := by
    intro a ha
    rw [hu] at ha
    rcases mem_joinSp _ a ha with ⟨w, hw, haw⟩ | h32
    · exact Or.inl (mem_of_mem_pyWords n6.length n6 le_rfl w hw a haw)
    · exact Or.inr h32
  have h6_2 : ∀ a ∈ n6, a ∈ n2 := by
    intro a ha
    have h5 : a ∈ n5 := by
      rcases mem_replaceAll _ _ _ a ha with h' | h'
      · exact h'
      · exact absurd h' (by simp)
    have h4 : a ∈ n4 := by
      rcases mem_replaceAll _ _ _ a h5 with h' | h'
      · exact h'
      · exact absurd h' (by simp)
    have h3 : a ∈ n3 := by
      rcases mem_replaceAll _ _ _ a h4 with h' | h'
      · exact h'
      · exact absurd h' (by simp)
    rcases mem_replaceAll _ _ _ a h3 with h' | h'
    · exact h'
    · exact absurd h' (by simp)
  have hfix : ∀ a ∈ u, lowerCode a = a := by
    intro a ha
    rcases hu_n6 a ha with h6 | h32
    · rcases mem_foldl_replaceAll _ _ a (h6_2 a h6) with hlow | ⟨p, hp, hap⟩
      · exact lowerCode_of_mem_lowerStr hlow
      · exact ntn_values_lower p hp a hap
    · subst h32
      rfl
  have hnotmem : ∀ b : Nat, b = 46 ∨ b = 39 ∨ b = 40 ∨ b = 41 → b ∉ u := by
    intro b hb hmem
    rcases hu_n6 b hmem with h6 | h32
    · rcases hb with rfl | rfl | rfl | rfl
      · have h3 : (46 : Nat) ∉ n3 := not_mem_replaceAll_single 46 n2
        have h4 : (46 : Nat) ∉ n4 := fun hc =>
          h3 (by rcases mem_replaceAll _ _ _ _ hc with h' | h'
                 · exact h'
                 · exact absurd h' (by simp))
        have h5 : (46 : Nat) ∉ n5 := fun hc =>
          h4 (by rcases mem_replaceAll _ _ _ _ hc with h' | h'
                 · exact h'
                 · exact absurd h' (by simp))
        exact absurd (by rcases mem_replaceAll _ _ _ _ h6 with h' | h'
                         · exact h'
                         · exact absurd h' (by simp)) h5
      · have h4 : (39 : Nat) ∉ n4 := not_mem_replaceAll_single 39 n3
        have h5 : (39 : Nat) ∉ n5 := fun hc =>
          h4 (by rcases mem_replaceAll _ _ _ _ hc with h' | h'
                 · exact h'
                 · exact absurd h' (by simp))
        exact absurd (by rcases mem_replaceAll _ _ _ _ h6 with h' | h'
                         · exact h'
                         · exact absurd h' (by simp)) h5
      · have h5 : (40 : Nat) ∉ n5 := not_mem_replaceAll_single 40 n4
        exact absurd (by rcases mem_replaceAll _ _ _ _ h6 with h' | h'
                         · exact h'
                         · exact absurd h' (by simp)) h5
      · exact absurd h6 (not_mem_replaceAll_single 41 n5)
    · rcases hb with rfl | rfl | rfl | rfl <;> simp at h32
  have s1 : lowerStr u = u := map_eq_self_of_fixed lowerCode u hfix
  have s2 : ntnReplacements.foldl (fun acc p => replaceAll p.1 p.2 acc) u = u :=
    foldl_replaceAll_eq_self ntnReplacements u h
  have s3 : replaceAll [46] [] u = u :=
    replaceAll_eq_self_of_not_contains _ _ _
      (containsSub_single_eq_false (hnotmem 46 (by simp)))
  have s4 : replaceAll [39] [] u = u :=
    replaceAll_eq_self_of_not_contains _ _ _
      (containsSub_single_eq_false (hnotmem 39 (by simp)))
  have s5 : replaceAll [40] [] u = u :=
    replaceAll_eq_self_of_not_contains _ _ _
      (containsSub_single_eq_false (hnotmem 40 (by simp)))
  have s6 : replaceAll [41] [] u = u :=
    replaceAll_eq_self_of_not_contains _ _ _
      (containsSub_single_eq_false (hnotmem 41 (by simp)))
  have swords : pyWords u = pyWords n6 := by
    rw [hu]
    exact pyWords_joinSp (pyWords n6)
      (pyWords_words_spec n6.length n6 le_rfl)
  show joinSp (pyWords (replaceAll [41] [] (replaceAll [40] [] (replaceAll [39] []
    (replaceAll [46] [] (ntnReplacements.foldl (fun acc p => replaceAll p.1 p.2 acc)
      (lowerStr u))))))) = u
  rw [s1, s2, s3, s4, s5, s6, swords]
  exact hu.symm

theorem lookupKey_setKey_self :
    ∀ (l : List (String × Json)) (k : String) (v : Json),
      lookupKey (setKey l k v) k = some v := by
  intro l k v
  induction l with
  | nil => simp [setKey, lookupKey]
  | cons p t ih =>
    obtain ⟨a, b⟩ := p
    by_cases hk : a = k
    · subst hk
      simp [setKey, lookupKey]
    · simp [setKey, hk, lookupKey, ih]

theorem lookupKey_setKey_ne :
    ∀ (l : List (String × Json)) (k k' : String) (v : Json), k' ≠ k →
      lookupKey (setKey l k v) k' = lookupKey l k' := by
  intro l k k' v hne
  have hne' : ¬k = k' := fun h => hne h.symm
  induction l with
  | nil => simp [setKey, lookupKey, hne']
  | cons p t ih =>
    obtain ⟨a, b⟩ := p
    by_cases hk : a = k
    · subst hk
      simp [setKey, lookupKey, hne']
    · simp [setKey, hk, lookupKey, ih]

/-- C2 counterexample: `normalize_team_name` is not idempotent on all
inputs.  The input "u.conn" normalizes to "uconn" (the dot is stripped after
the alias pass has already run), and normalizing "uconn" again yields
"connecticut". -/
theorem normalize_team_name_not_idempotent :
    normalize_team_name (strLit "u.conn") = strLit "uconn" ∧
    normalize_team_name (normalize_team_name (strLit "u.conn")) = strLit "connecticut" ∧
    normalize_team_name (normalize_team_name (strLit "u.conn")) ≠
      normalize_team_name (strLit "u.conn") :=
  ⟨by decide, by decide, by decide⟩

/-- C2 (amended): `normalize_team_name` is deterministic (it is a pure
function of its input), "UConn" and "Connecticut" normalize to the same key,
and it is idempotent on every input whose normalized form contains no
alias-table key as a substring — but not on all inputs (see the
counterexample "u.conn"). -/
theorem normalize_team_name_spec :
    (∀ s, (∀ p ∈ ntnReplacements, containsSub (normalize_team_name s) p.1 = false) →
      normalize_team_name (normalize_team_name s) = normalize_team_name s) ∧
    normalize_team_name (strLit "UConn") = normalize_team_name (strLit "Connecticut") :=
  ⟨normalize_team_name_idem_aux, by decide⟩

/-- C2 witness: the conditional idempotency applied to the concrete input
"Connecticut", whose normalized form "connecticut" contains no alias key. -/
theorem normalize_team_name_spec_witness :
    normalize_team_name (normalize_team_name (strLit "Connecticut")) =
      normalize_team_name (strLit "Connecticut") :=
  normalize_team_name_spec.1 (strLit "Connecticut") (by decide)

/-- C3 counterexample: the opponent-name comparison is case-insensitive, so
the matcher returns a game whose normalized opponent name ("DUKE") differs
from the schedule entry's normalized opponent name ("duke"); the claim's
"never returns a game whose normalized opponent name differs" is false for
exact string equality of normalized names. -/
theorem match_game_case_insensitive_counterexample :
    match_game_by_opponent_and_date ⟨strLit "duke", some 0, strLit "TBD", false, []⟩
      [⟨0, strLit "DUKE", strLit "W 80-60", strLit "final", true⟩] =
      some ⟨0, strLit "DUKE", strLit "W 80-60", strLit "final", true⟩ ∧
    normalize_opponent_name (strLit "DUKE") ≠ normalize_opponent_name (strLit "duke") :=
  ⟨by decide, by decide⟩

/-- C3 (amended): (1) whenever some API game's normalized opponent name
equals the schedule entry's case-insensitively and its date is within the
one-day tolerance, a match is returned; (2) a returned game always has a
normalized opponent name equal to the schedule entry's after lower-casing
(never one that differs case-insensitively), regardless of date; (3) among
several qualifying candidates the first in list order wins. -/
theorem match_game_spec :
    (∀ (sg : ScheduleGame) (d : Int) (api : List ApiGame) (g : ApiGame),
      sg.date = some d → g ∈ api →
      lowerStr (normalize_opponent_name g.opponent) =
        lowerStr (normalize_opponent_name sg.opponent) →
      (Int.fdiv (g.date - d) 86400).natAbs ≤ 1 →
      (match_game_by_opponent_and_date sg api).isSome) ∧
    (∀ (sg : ScheduleGame) (api : List ApiGame) (g : ApiGame),
      match_game_by_opponent_and_date sg api = some g →
      lowerStr (normalize_opponent_name g.opponent) =
        lowerStr (normalize_opponent_name sg.opponent)) ∧
    (∀ (sg : ScheduleGame) (d : Int) (l₁ l₂ : List ApiGame) (g : ApiGame),
      sg.date = some d →
      (∀ g' ∈ l₁, ¬(lowerStr (normalize_opponent_name g'.opponent) =
          lowerStr (normalize_opponent_name sg.opponent) ∧
        (Int.fdiv (g'.date - d) 86400).natAbs ≤ 1)) →
      lowerStr (normalize_opponent_name g.opponent) =
        lowerStr (normalize_opponent_name sg.opponent) →
      (Int.fdiv (g.date - d) 86400).natAbs ≤ 1 →
      match_game_by_opponent_and_date sg (l₁ ++ g :: l₂) = some g) := by
  refine ⟨?_, ?_, ?_⟩
  · intro sg d api g hdate hmem hname hclose
    simp only [match_game_by_opponent_and_date, hdate]
    rw [List.find?_isSome]
    exact ⟨g, hmem, by simp [hname, hclose]⟩
  · intro sg api g hfind
    cases hdate : sg.date with
    | none =>
      simp only [match_game_by_opponent_and_date, hdate] at hfind
      exact Option.noConfusion hfind
    | some d =>
      simp only [match_game_by_opponent_and_date, hdate] at hfind
      have := List.find?_some hfind
      simp only [Bool.and_eq_true, decide_eq_true_eq] at this
      exact this.1
  · intro sg d l₁ l₂ g hdate hskip hname hclose
    simp only [match_game_by_opponent_and_date, hdate]
    induction l₁ with
    | nil =>
      simp only [List.nil_append]
      exact List.find?_cons_of_pos _ (by simp [hname, hclose])
    | cons x rest ih =>
      have hx := hskip x (List.mem_cons_self _ _)
      rw [List.cons_append, List.find?_cons_of_neg _ (by
        simp only [Bool.and_eq_true, decide_eq_true_eq]
        exact hx)]
      exact ih (fun g' hg' => hskip g' (List.mem_cons_of_mem _ hg'))

/-- C3 witness: the amended specification applied to the schedule entry
"Missouri" and the single API game "Mizzou" played one hour after the
schedule's midnight date (normalized names agree case-insensitively, date
within tolerance): a match is returned; the returned game's normalized name
agrees; and with an empty non-qualifying prefix the first candidate wins. -/
theorem match_game_spec_witness :
    (match_game_by_opponent_and_date ⟨strLit "Missouri", some 0, strLit "TBD", false, []⟩
      [⟨3600, strLit "Mizzou", strLit "W 91-74", strLit "final", true⟩]).isSome ∧
    lowerStr (normalize_opponent_name
      (strLit "Mizzou")) = lowerStr (normalize_opponent_name (strLit "Missouri")) ∧
    match_game_by_opponent_and_date ⟨strLit "Missouri", some 0, strLit "TBD", false, []⟩
      ([] ++ ⟨3600, strLit "Mizzou", strLit "W 91-74", strLit "final", true⟩ :: []) =
      some ⟨3600, strLit "Mizzou", strLit "W 91-74", strLit "final", true⟩ := by
  refine ⟨?_, ?_, ?_⟩
  · exact match_game_spec.1
      ⟨strLit "Missouri", some 0, strLit "TBD", false, []⟩ 0
      [⟨3600, strLit "Mizzou", strLit "W 91-74", strLit "final", true⟩]
      ⟨3600, strLit "Mizzou", strLit "W 91-74", strLit "final", true⟩
      rfl (List.mem_singleton.mpr rfl) (by decide) (by decide)
  · exact match_game_spec.2.1
      ⟨strLit "Missouri", some 0, strLit "TBD", false, []⟩
      [⟨3600, strLit "Mizzou", strLit "W 91-74", strLit "final", true⟩]
      ⟨3600, strLit "Mizzou", strLit "W 91-74", strLit "final", true⟩ (by decide)
  · exact match_game_spec.2.2
      ⟨strLit "Missouri", some 0, strLit "TBD", false, []⟩ 0 [] []
      ⟨3600, strLit "Mizzou", strLit "W 91-74", strLit "final", true⟩
      rfl (by simp) (by decide) (by decide)

/-- C9: `update_schedule_file` maps `updateScheduleEntry` over the schedule;
that step leaves every exhibition entry and every entry whose result is not
exactly "TBD" unchanged, never modifies any field other than `result`, and
any entry it does change had result "TBD" and was not an exhibition. -/
theorem update_schedule_file_preserves_results :
    (∀ api sched, update_schedule_file (ScheduleFile.valid sched) api =
      (true, ScheduleFile.valid (sched.map (updateScheduleEntry api)))) ∧
    (∀ api g, g.exh = true → updateScheduleEntry api g = g) ∧
    (∀ api g, g.result ≠ strLit "TBD" → updateScheduleEntry api g = g) ∧
    (∀ api g, (updateScheduleEntry api g).opponent = g.opponent ∧
      (updateScheduleEntry api g).date = g.date ∧
      (updateScheduleEntry api g).exh = g.exh ∧
      (updateScheduleEntry api g).otherFields = g.otherFields) ∧
    (∀ api g, updateScheduleEntry api g ≠ g →
      g.result = strLit "TBD" ∧ g.exh = false) := by
  refine ⟨fun api sched => rfl, ?_, ?_, ?_, ?_⟩
  · intro api g hexh
    simp [updateScheduleEntry, hexh]
  · intro api g hres
    simp only [updateScheduleEntry, hres]
    split
    · rfl
    · simp
  · intro api g
    simp only [updateScheduleEntry]
    split
    · exact ⟨rfl, rfl, rfl, rfl⟩
    · split
      · exact ⟨rfl, rfl, rfl, rfl⟩
      · split
        · split
          · exact ⟨rfl, rfl, rfl, rfl⟩
          · exact ⟨rfl, rfl, rfl, rfl⟩
        · exact ⟨rfl, rfl, rfl, rfl⟩
  · intro api g hne
    constructor
    · by_contra hres
      exact hne (by simp only [updateScheduleEntry, hres]
                    split
                    · rfl
                    · simp)
    · by_contra hexh
      have : g.exh = true := by
        cases h : g.exh
        · exact absurd h hexh
        · rfl
      exact hne (by simp [updateScheduleEntry, this])

/-- C9 witness: an exhibition entry and an entry with a recorded result are
both returned unchanged by the update step. -/
theorem update_schedule_file_preserves_results_witness :
    updateScheduleEntry [] ⟨strLit "Georgetown College", some 0, strLit "TBD", true, []⟩ =
      ⟨strLit "Georgetown College", some 0, strLit "TBD", true, []⟩ ∧
    updateScheduleEntry [] ⟨strLit "Duke", some 0, strLit "W 80-60", false, []⟩ =
      ⟨strLit "Duke", some 0, strLit "W 80-60", false, []⟩ :=
  ⟨update_schedule_file_preserves_results.2.1 [] _ rfl,
   update_schedule_file_preserves_results.2.2.1 [] _ (by decide)⟩

/-- C6: when the existing `update.json` document lacks a top-level "2025"
key, `update_json_file` succeeds and produces a document whose "2025" key
holds an object with both the assigned `stats` block and an empty `rankings`
block, while every other top-level key is written back unchanged. -/
theorem update_json_file_creates_season :
    ∀ (l : List (String × Json)) (stats : Json),
      lookupKey l "2025" = none →
      ∃ l', update_json_file (UpdateFile.valid (Json.obj l)) stats =
          (true, UpdateFile.valid (Json.obj l')) ∧
        lookupKey l' "2025" =
          some (Json.obj [("stats", stats), ("rankings", Json.obj [])]) ∧
        ∀ k, k ≠ "2025" → lookupKey l' k = lookupKey l k := by
  intro l stats hnone
  have hens : ensure2025 l =
      setKey l "2025" (Json.obj [("stats", Json.obj []), ("rankings", Json.obj [])]) := by
    simp [ensure2025, hnone]
  have hlook : lookupKey (ensure2025 l) "2025" =
      some (Json.obj [("stats", Json.obj []), ("rankings", Json.obj [])]) := by
    rw [hens]
    exact lookupKey_setKey_self _ _ _
  refine ⟨setKey (ensure2025 l) "2025"
    (Json.obj [("stats", stats), ("rankings", Json.obj [])]), ?_, ?_, ?_⟩
  · simp [update_json_file, hlook, lookupKey, setKey]
  · exact lookupKey_setKey_self _ _ _
  · intro k hk
    rw [lookupKey_setKey_ne _ _ _ _ hk, hens, lookupKey_setKey_ne _ _ _ _ hk]

/-- C6 witness: applied to the concrete document with the single key "2024";
the update succeeds, creates "2025" with the stats and rankings blocks, and
leaves "2024" untouched. -/
theorem update_json_file_creates_season_witness :
    ∃ l', update_json_file (UpdateFile.valid (Json.obj [("2024", Json.null)]))
        (Json.obj []) = (true, UpdateFile.valid (Json.obj l')) ∧
      lookupKey l' "2025" =
        some (Json.obj [("stats", Json.obj []), ("rankings", Json.obj [])]) ∧
      ∀ k, k ≠ "2025" → lookupKey l' k = lookupKey [("2024", Json.null)] k :=
  update_json_file_creates_season [("2024", Json.null)] (Json.obj []) rfl

/-- C7: a malformed existing JSON file makes both updaters return `False`
with the file content unchanged, and a `False` update makes `main` return
exit code 1 (non-zero). -/
theorem malformed_json_aborts :
    (∀ (raw : List Nat) (stats : Json),
      update_json_file (UpdateFile.malformed raw) stats =
        (false, UpdateFile.malformed raw)) ∧
    (∀ (raw : List Nat) (api_games : List ApiGame),
      update_schedule_file (ScheduleFile.malformed raw) api_games =
        (false, ScheduleFile.malformed raw)) ∧
    script_exit_code false = 1 ∧ script_exit_code false ≠ 0 :=
  ⟨fun _ _ => rfl, fun _ _ => rfl, rfl, by decide⟩

/-- C4: for every merged player record, a games count of zero leaves the
`perGameAverages` block absent and a minutes count of zero leaves the
`per40Stats` block absent; no division by zero is ever performed (both
blocks are computed only under their positivity guards, and ℚ has no
infinity or NaN). -/
theorem merge_all_stats_zero_guard :
    ∀ (season_stats : List PlayerSeasonRaw) (shooting_stats : List ShootingRaw),
      ∀ m ∈ merge_all_stats season_stats shooting_stats,
        (m.raw.games.getD 0 = 0 → m.perGameAverages = none) ∧
        (m.raw.minutes.getD 0 = 0 → m.per40Stats = none) := by
  intro ss sh m hm
  rcases List.mem_map.mp hm with ⟨p, _, rfl⟩
  constructor
  · intro hg
    have hg' : p.games.getD 0 = 0 := hg
    simp [merge_player, hg']
  · intro hmin
    have hmin' : p.minutes.getD 0 = 0 := hmin
    simp [merge_player, hmin']

/-- C4 witness: a concrete player record with `games = 0` and `minutes = 0`
(all counting stats absent) whose merged record has both derived blocks
omitted. -/
theorem merge_all_stats_zero_guard_witness :
    (merge_player
        ⟨some 7, some 0, some 0, none, none, none, none, none, none,
          ⟨none, none, none⟩, ⟨none, none, none⟩, ⟨none, none, none⟩,
          ⟨none, none, none⟩, ⟨none, none, none⟩, none, none⟩
        (shooting_lookup [])).perGameAverages = none ∧
    (merge_player
        ⟨some 7, some 0, some 0, none, none, none, none, none, none,
          ⟨none, none, none⟩, ⟨none, none, none⟩, ⟨none, none, none⟩,
          ⟨none, none, none⟩, ⟨none, none, none⟩, none, none⟩
        (shooting_lookup [])).per40Stats = none := by
  have h := merge_all_stats_zero_guard
    [⟨some 7, some 0, some 0, none, none, none, none, none, none,
      ⟨none, none, none⟩, ⟨none, none, none⟩, ⟨none, none, none⟩,
      ⟨none, none, none⟩, ⟨none, none, none⟩, none, none⟩] []
    (merge_player
      ⟨some 7, some 0, some 0, none, none, none, none, none, none,
        ⟨none, none, none⟩, ⟨none, none, none⟩, ⟨none, none, none⟩,
        ⟨none, none, none⟩, ⟨none, none, none⟩, none, none⟩
      (shooting_lookup []))
    (List.mem_singleton.mpr rfl)
  exact ⟨h.1 rfl, h.2 rfl⟩

theorem calcGame_base (g : GameRec) : (calcGame g).base = g := by
  simp only [calcGame]
  split <;> rfl

theorem foldl_organizeStep_same_gid (tls : List TeamLog) (gid : Nat) (hgid : gid ≠ 0) :
    ∀ (ls : List PlayerLine) (rec : GameRec),
      (ls.map (fun l => (⟨some gid, l⟩ : PlayerLog))).foldl (organizeStep tls)
          [(gid, rec)] =
        [(gid, { rec with players := rec.players ++ ls })] := by
  intro ls
  induction ls with
  | nil => intro rec; simp
  | cons l rest ih =>
    intro rec
    simp only [List.map_cons, List.foldl_cons]
    have hstep : organizeStep tls [(gid, rec)] ⟨some gid, l⟩ =
        [(gid, { rec with players := rec.players ++ [l] })] := by
      simp [organizeStep, hgid, lookupGame, appendPlayer]
    rw [hstep, ih]
    simp [List.append_assoc]

theorem calcGame_78_65 (g : GameRec) (hg : g.teamPointsTotal = some 78)
    (ho : g.oppPointsTotal = some 65) :
    calcGame g = { base := g, result := strLit "W", finalScore := strLit "W 78-65",
                   pointDifferential := 13, teamScore := 78, opponentScore := 65 } := by
  simp only [calcGame, hg, ho, Option.getD_some]
  rw [if_pos (by norm_num)]
  congr 1

/-- C5: feeding the pipeline one final game (team total 78, opponent total
65) with any nonempty list of player-log entries for that game produces a
single game record with result "W", `pointDifferential` 13, final score
"W 78-65", and a players list equal to the given entries — in particular of
the same length as the player-log list. -/
theorem gamelog_single_final_game :
    ∀ (lines : List PlayerLine) (gid : Nat) (tl : TeamLog),
      lines ≠ [] → gid ≠ 0 → tl.gameId = some gid →
      tl.teamPointsTotal = some 78 → tl.oppPointsTotal = some 65 →
      calculate_game_results
          (organize_complete_game_data (lines.map (fun l => ⟨some gid, l⟩)) [tl]) =
        [{ base := { gameId := gid, teamPointsTotal := some 78,
                     oppPointsTotal := some 65, players := lines },
           result := strLit "W", finalScore := strLit "W 78-65",
           pointDifferential := 13, teamScore := 78, opponentScore := 65 }] ∧
      ∀ fg ∈ calculate_game_results
          (organize_complete_game_data (lines.map (fun l => ⟨some gid, l⟩)) [tl]),
        fg.base.players.length =
          (lines.map (fun l => (⟨some gid, l⟩ : PlayerLog))).length := by
  intro lines gid tl hne hgid hid h78 h65
  obtain ⟨l, rest, rfl⟩ : ∃ l rest, lines = l :: rest := by
    cases lines with
    | nil => exact absurd rfl hne
    | cons a t => exact ⟨a, t, rfl⟩
  have hlkp : game_lookup [tl] gid = some tl := by
    simp [game_lookup, hid, hgid]
  have horg : organize_complete_game_data
      ((l :: rest).map (fun x => ⟨some gid, x⟩)) [tl] =
      [{ gameId := gid, teamPointsTotal := some 78, oppPointsTotal := some 65,
          players := l :: rest }] := by
    unfold organize_complete_game_data
    simp only [List.map_cons, List.foldl_cons]
    have hstep0 : organizeStep [tl] [] ⟨some gid, l⟩ =
        [(gid, { gameId := gid, teamPointsTotal := some 78,
                  oppPointsTotal := some 65, players := [l] })] := by
      simp [organizeStep, hgid, lookupGame, hlkp, h78, h65]
    rw [hstep0, foldl_organizeStep_same_gid [tl] gid hgid rest _]
    simp
  constructor
  · rw [horg]
    unfold calculate_game_results
    rw [List.map_singleton, calcGame_78_65 _ rfl rfl]
  · intro fg hfg
    rw [horg] at hfg
    unfold calculate_game_results at hfg
    rw [List.map_singleton, List.mem_singleton] at hfg
    subst hfg
    rw [calcGame_base]
    simp

/-- C5 witness: the scenario evaluated with two concrete player-log entries
for game 401: one game, result "W", differential 13, two players. -/
theorem gamelog_single_final_game_witness :
    calculate_game_results
        (organize_complete_game_data
          ([⟨strLit "A", none, none⟩, ⟨strLit "B", none, none⟩].map
            (fun l => ⟨some 401, l⟩)) [⟨some 401, some 78, some 65⟩]) =
      [{ base := { gameId := 401, teamPointsTotal := some 78,
                    oppPointsTotal := some 65,
                    players := [⟨strLit "A", none, none⟩, ⟨strLit "B", none, none⟩] },
         result := strLit "W", finalScore := strLit "W 78-65",
         pointDifferential := 13, teamScore := 78, opponentScore := 65 }] ∧
    ∀ fg ∈ calculate_game_results
        (organize_complete_game_data
          ([⟨strLit "A", none, none⟩, ⟨strLit "B", none, none⟩].map
            (fun l => ⟨some 401, l⟩)) [⟨some 401, some 78, some 65⟩]),
      fg.base.players.length =
        ([⟨strLit "A", none, none⟩, ⟨strLit "B", none, none⟩].map
          (fun l => (⟨some 401, l⟩ : PlayerLog))).length :=
  gamelog_single_final_game
    [⟨strLit "A", none, none⟩, ⟨strLit "B", none, none⟩] 401
    ⟨some 401, some 78, some 65⟩ (by simp) (by decide) rfl rfl rfl

/-- C10: every result-computing function records a tied final game (and, for
`calculate_game_results`, a game whose two totals are absent and default
to 0) as a loss, and produces a "W" result only when the team's score is
strictly greater than the opponent's. -/
theorem result_functions_tie_is_loss :
    (∀ g : GameRec, g.teamPointsTotal.getD 0 = g.oppPointsTotal.getD 0 →
      (calcGame g).result = strLit "L") ∧
    (∀ g : GameRec, (calcGame g).result = strLit "W" ↔
      g.teamPointsTotal.getD 0 > g.oppPointsTotal.getD 0) ∧
    (∀ (g : SchedApiGame) (kid : Nat), g.status = strLit "final" →
      g.homePoints = g.awayPoints → (get_game_result g kid).take 1 = strLit "L") ∧
    (∀ (g : SchedApiGame) (kid : Nat), (get_game_result g kid).take 1 = strLit "W" →
      g.status = strLit "final" ∧
      (if g.homeTeamId = kid then g.homePoints else g.awayPoints) >
        (if g.homeTeamId = kid then g.awayPoints else g.homePoints)) ∧
    (∀ (g : CbbdGame) (s : List Nat), g.status = some s → s ≠ [] →
      lowerStr s = strLit "final" → g.home_points = g.away_points →
      (fetch_kentucky_games_result g).take 1 = strLit "L") ∧
    (∀ g : CbbdGame, (fetch_kentucky_games_result g).take 1 = strLit "W" →
      (if g.home_team = strLit "Kentucky" then g.home_points else g.away_points) >
        (if g.home_team = strLit "Kentucky" then g.away_points else g.home_points)) := by
  have htb : (strLit "TBD").take 1 ≠ strLit "W" := by decide
  have hwL : ∀ r : List Nat, (strLit "L " ++ r).take 1 = strLit "L" := fun r => rfl
  have hLW : ∀ r : List Nat, (strLit "L " ++ r).take 1 ≠ strLit "W" := fun r => by
    rw [hwL r]
    decide
  refine ⟨?_, ?_, ?_, ?_, ?_, ?_⟩
  · intro g heq
    simp only [calcGame, heq]
    rw [if_neg (lt_irrefl _)]
  · intro g
    constructor
    · intro hres
      by_contra hle
      simp only [calcGame] at hres
      rw [if_neg hle] at hres
      have hres' : strLit "L" = strLit "W" := hres
      exact absurd hres' (by decide)
    · intro hgt
      simp only [calcGame]
      rw [if_pos hgt]
  · intro g kid hstat heq
    simp only [get_game_result, hstat]
    rw [if_neg (by simp)]
    rw [if_neg (show ¬(if g.homeTeamId = kid then g.homePoints else g.awayPoints) >
        (if g.homeTeamId = kid then g.awayPoints else g.homePoints) by
      by_cases h : g.homeTeamId = kid <;> simp [h, heq])]
    exact hwL _
  · intro g kid hres
    by_cases hstat : g.status = strLit "final"
    · refine ⟨hstat, ?_⟩
      by_contra hle
      simp only [get_game_result, hstat] at hres
      rw [if_neg (by simp), if_neg hle] at hres
      exact hLW _ hres
    · simp only [get_game_result, if_pos hstat] at hres
      exact absurd hres htb
  · intro g s hstat hne hlow heq
    simp only [fetch_kentucky_games_result, hstat]
    rw [if_pos ⟨hne, hlow⟩]
    rw [if_neg (show ¬(if g.home_team = strLit "Kentucky" then g.home_points
          else g.away_points) >
        (if g.home_team = strLit "Kentucky" then g.away_points else g.home_points) by
      by_cases h : g.home_team = strLit "Kentucky" <;> simp [h, heq])]
    exact hwL _
  · intro g hres
    by_contra hle
    simp only [fetch_kentucky_games_result] at hres
    split at hres
    · rename_i x s heqs
      by_cases hcond : s ≠ [] ∧ lowerStr s = strLit "final"
      · rw [if_pos hcond, if_neg hle] at hres
        exact hLW _ hres
      · rw [if_neg hcond] at hres
        exact absurd hres htb
    · exact absurd hres htb

/-- C10 witness: a tied game with both totals present, a tied game with both
totals absent, a won game, and tied final games through `get_game_result`
and the `fetch_kentucky_games` result builder, all evaluated concretely. -/
theorem result_functions_tie_is_loss_witness :
    (calcGame ⟨5, some 70, some 70, []⟩).result = strLit "L" ∧
    (calcGame ⟨5, none, none, []⟩).result = strLit "L" ∧
    (calcGame ⟨5, some 78, some 65, []⟩).result = strLit "W" ∧
    (get_game_result ⟨strLit "final", 135, 60, 60⟩ 135).take 1 = strLit "L" ∧
    (fetch_kentucky_games_result
      ⟨strLit "Kentucky", strLit "Duke", 60, 60, some (strLit "Final")⟩).take 1 =
      strLit "L" :=
  ⟨result_functions_tie_is_loss.1 ⟨5, some 70, some 70, []⟩ (by decide),
   result_functions_tie_is_loss.1 ⟨5, none, none, []⟩ (by decide),
   (result_functions_tie_is_loss.2.1 ⟨5, some 78, some 65, []⟩).mpr (by decide),
   result_functions_tie_is_loss.2.2.1 ⟨strLit "final", 135, 60, 60⟩ 135 rfl rfl,
   result_functions_tie_is_loss.2.2.2.2.1
     ⟨strLit "Kentucky", strLit "Duke", 60, 60, some (strLit "Final")⟩
     (strLit "Final") rfl (by decide) (by decide) rfl⟩

/-- C8 counterexample: two runs over the same (empty) fetched data at
different wall-clock times write different file contents — the bytes are not
a function of the API data alone, because `lastUpdated` embeds
`datetime.now()`. -/
theorem save_players_json_time_dependent :
    save_players_json none [] (strLit "2025-01-01T00:00:00") ≠
      save_players_json none [] (strLit "2025-01-02T00:00:00") := by
  intro h
  simp only [save_players_json, save_players_output, save_players_fields,
    Option.some.injEq, Json.obj.injEq, List.cons.injEq, Prod.mk.injEq,
    Json.str.injEq, true_and, and_true] at h
  exact absurd h (by decide)

/-- C8 (amended): reruns overwrite rather than append — the written content
ignores the previous file content entirely — and the content is a
deterministic function of the fetched API data and the run timestamp; every
top-level field other than `lastUpdated` is a function of the fetched data
alone. -/
theorem save_output_deterministic :
    (∀ (prev₁ prev₂ : Option Json) (players_data : List Json) (now : List Nat),
      save_players_json prev₁ players_data now =
        save_players_json prev₂ players_data now) ∧
    (∀ (prev₁ prev₂ : Option Json) (seasons : List (Nat × Json)) (now : List Nat),
      gamelog_write prev₁ seasons now = gamelog_write prev₂ seasons now) ∧
    (∀ (players_data : List Json) (t₁ t₂ : List Nat) (k : String),
      k ≠ "lastUpdated" →
      lookupKey (save_players_fields players_data t₁) k =
        lookupKey (save_players_fields players_data t₂) k) ∧
    (∀ (seasons : List (Nat × Json)) (t₁ t₂ : List Nat) (k : String),
      k ≠ "lastUpdated" →
      lookupKey (gamelog_fields seasons t₁) k =
        lookupKey (gamelog_fields seasons t₂) k) := by
  refine ⟨fun _ _ _ _ => rfl, fun _ _ _ _ => rfl, ?_, ?_⟩
  · intro pd t₁ t₂ k hk
    have hk' : ¬("lastUpdated" = k) := fun h => hk h.symm
    simp [save_players_fields, lookupKey, hk']
  · intro seasons t₁ t₂ k hk
    have hk' : ¬("lastUpdated" = k) := fun h => hk h.symm
    simp [gamelog_fields, lookupKey, hk']

/-- C8 witness: the previous-content independence and the
timestamp-independence of the "team" field, evaluated on concrete inputs. -/
theorem save_output_deterministic_witness :
    save_players_json none [] (strLit "2025-01-01T00:00:00") =
      save_players_json (some Json.null) [] (strLit "2025-01-01T00:00:00") ∧
    gamelog_write none [] (strLit "2025-01-01T00:00:00") =
      gamelog_write (some Json.null) [] (strLit "2025-01-01T00:00:00") ∧
    lookupKey (save_players_fields [] (strLit "2025-01-01T00:00:00")) "team" =
      lookupKey (save_players_fields [] (strLit "2025-01-02T00:00:00")) "team" ∧
    lookupKey (gamelog_fields [] (strLit "2025-01-01T00:00:00")) "team" =
      lookupKey (gamelog_fields [] (strLit "2025-01-02T00:00:00")) "team" :=
  ⟨save_output_deterministic.1 none (some Json.null) [] (strLit "2025-01-01T00:00:00"),
   save_output_deterministic.2.1 none (some Json.null) [] (strLit "2025-01-01T00:00:00"),
   save_output_deterministic.2.2.1 [] (strLit "2025-01-01T00:00:00")
     (strLit "2025-01-02T00:00:00") "team" (by decide),
   save_output_deterministic.2.2.2 [] (strLit "2025-01-01T00:00:00")
     (strLit "2025-01-02T00:00:00") "team" (by decide)⟩

/-- C1 witness: the amended specification evaluated on the concrete
population `[3, 1]` with subject value `3`: rank is `1`, within bounds. -/
theorem calculate_rank_spec_witness :
    validValues [some 3, some 1] = [] ∨
      (1 ≤ calculate_rank (some 3) [some 3, some 1] true ∧
        calculate_rank (some 3) [some 3, some 1] true ≤
          (validValues [some 3, some 1]).length + 1 ∧
        (calculate_rank (some 3) [some 3, some 1] true = 1 ↔
          ∀ w ∈ validValues [some 3, some 1], if true then w ≤ 3 else (3:ℚ) ≤ w)) :=
  Or.inr (calculate_rank_spec.2.2.2 3 [some 3, some 1] true (by decide) (by decide))

end BBN
